import Mathlib

/-!
Verification development for the roof-surface synthesis and edit-state
reconciliation engine of `src/blenderbim/blenderbim/bim/module/model/roof.py`.

Floating-point coordinates are embedded as exact rationals `ℚ`; the real-valued
slope conversion (`tan`/`radians`) is embedded over `ℝ`.  External collaborators
(shapely's planar arrangement/polygonization, bpypolyskel's straight skeleton,
Blender's bmesh services) are taken as function parameters or, where a claim
fixes their behavior, modelled from the spec and documented as such at the
definition.
-/

namespace RoofSpec

/-- Planar point, as used by the shoelace computations underlying shapely's
`area` / `is_ccw` on a ring (coordinates of a ring vertex, z ignored). -/
abbrev Pt2 := ℚ × ℚ

/-- Cross product term `p.x * q.y - q.x * p.y` of the shoelace sum. -/
def cross2 (p q : Pt2) : ℚ := p.1 * q.2 - q.1 * p.2

/-- Sum of the shoelace cross terms over consecutive pairs of an (open) path. -/
def pathSum : List Pt2 → ℚ
  | [] => 0
  | [_] => 0
  | p :: q :: rest => cross2 p q + pathSum (q :: rest)

/-- Closing shoelace term from the last point of a path back to its first. -/
def closeTerm (l : List Pt2) : ℚ :=
  match l.getLast?, l.head? with
  | some t, some h => cross2 t h
  | _, _ => 0

/-- Twice the signed area of the polygon obtained by closing the path `l`
(shoelace formula, cyclic).  Positive exactly on counter-clockwise rings. -/
def signedArea2 (l : List Pt2) : ℚ := pathSum l + closeTerm l

/-- Vertex of a shapely ring: planar coordinates plus an optional z coordinate
(absent on 2D geometry, present after `shapely.force_3d`). -/
structure PtZ where
  x : ℚ
  y : ℚ
  z : Option ℚ
  deriving DecidableEq, Repr

/-- Planar projection of a ring vertex. -/
def ptXY (p : PtZ) : Pt2 := (p.x, p.y)

/-- A ring produced by shapely's polygonization (`polygon.exterior.coords`,
including the closing duplicate of the first vertex, which contributes a zero
shoelace term). -/
abbrev Ring := List PtZ

/-- Twice the signed area of a ring's planar projection. -/
def ringSignedArea (r : Ring) : ℚ := signedArea2 (r.map ptXY)

/-- Shapely `is_ccw`, modelled from the spec's §4.1: a ring is counter-clockwise
exactly when its signed area is positive. -/
def ring_is_ccw (r : Ring) : Prop := 0 < ringSignedArea r

instance (r : Ring) : Decidable (ring_is_ccw r) := by
  unfold ring_is_ccw
  infer_instance

/-- Shapely `polygon.area`: the (nonnegative) enclosed area. -/
def ringArea (r : Ring) : ℚ := |ringSignedArea r| / 2

/-- Shapely `force_3d` on one vertex: add a z coordinate of 0 if absent,
keep an existing z. -/
def force_3d_pt (p : PtZ) : PtZ := ⟨p.x, p.y, some (p.z.getD 0)⟩

/-- Shapely `force_3d` on a ring. -/
def force_3d (r : Ring) : Ring := r.map force_3d_pt

/-- Orientation normalization, source lines 102-103 and 211-212:
`if not shapely.is_ccw(roof_polygon): roof_polygon = roof_polygon.reverse()`. -/
def normalizeOrientation (r : Ring) : Ring :=
  if ring_is_ccw r then r else r.reverse

/-- Python `max(geoms, key=lambda polygon: polygon.area)` over `first :: rest`:
fold keeping the current element unless a strictly larger key appears, so the
first element attaining the maximal area wins. -/
def pickMaxArea (first : Ring) (rest : List Ring) : Ring :=
  rest.foldl (fun best r => if ringArea best < ringArea r then r else best) first

/-- Failure modes of the generation pipeline, each naming the uncaught Python
exception site in `roof.py` it models. -/
inductive GenErr where
  /-- ValueError from `max()` over an empty polygonization result (lines 96, 205). -/
  | noPolygons
  /-- ReferenceError at line 182: a footprint edge lost an endpoint to the
  removal of non-footprint vertices at lines 175-177. -/
  | deadEdgeAccess
  /-- IndexError at line 321: `footprint_edges[0]` on an empty list. -/
  | noFootprintEdge
  /-- NameError at lines 285-290: `find_other_polygon_verts_i` with no polygons. -/
  | noFaceForEdge
  deriving DecidableEq, Repr

/-- Boundary extraction from the polygonization output, source lines 205-212
(same as 96-103): pick the maximal-area polygon (`max` raises ValueError on an
empty sequence), force a z coordinate, normalize winding to counter-clockwise. -/
def extractRoofPolygon : List Ring → Except GenErr Ring
  | [] => .error .noPolygons
  | r :: rs => .ok (normalizeOrientation (force_3d (pickMaxArea r rs)))

/-- A 3D coordinate (mathutils `Vector`), embedded over exact rationals. -/
structure Vec3 where
  x : ℚ
  y : ℚ
  z : ℚ
  deriving DecidableEq, Repr

/-- Source lines 46-47: `0.0001 >= f >= -0.0001`. -/
def float_is_zero (f : ℚ) : Prop := 0.0001 ≥ f ∧ f ≥ -0.0001

instance (f : ℚ) : Decidable (float_is_zero f) := by
  unfold float_is_zero
  infer_instance

/-- A bmesh vertex: a stable identifier and its coordinate. -/
structure BVert where
  idx : ℕ
  co : Vec3
  deriving DecidableEq, Repr

/-- A bmesh edge: two vertex identifiers and its crease-layer value. -/
structure BEdge where
  v1 : ℕ
  v2 : ℕ
  crease : ℚ
  deriving DecidableEq, Repr

/-- Observable mesh state (`obj.data` after an `apply_bmesh`): vertices,
explicitly created edges, and faces as vertex-identifier cycles. -/
structure BMeshState where
  verts : List BVert
  edges : List BEdge
  faces : List (List ℕ)
  deriving DecidableEq, Repr

/-- One step of the footprint-vertex scan of `generate_gable_roof`, source
lines 159-167: a vertex within tolerance of the running minimum z is collected;
a vertex strictly below the running minimum lowers it and restarts the
collection; a vertex above is ignored. -/
def footprintScanStep (acc : ℚ × List BVert) (v : BVert) : ℚ × List BVert :=
  if float_is_zero (v.co.z - acc.1) then (acc.1, acc.2 ++ [v])
  else if acc.1 > v.co.z then (v.co.z, [v])
  else acc

/-- Footprint-vertex identification of source lines 156-167, with the running
minimum starting at 0 and the collection starting empty. -/
def footprintScan (verts : List BVert) : ℚ × List BVert :=
  verts.foldl footprintScanStep (0, [])

/-- Componentwise vector subtraction. -/
def vsub (a b : Vec3) : Vec3 := ⟨a.x - b.x, a.y - b.y, a.z - b.z⟩

/-- Squared euclidean length of a vector. -/
def lenSq (v : Vec3) : ℚ := v.x * v.x + v.y * v.y + v.z * v.z

/-- Source line 276: `float_is_zero((co - Vector([0,0,debug_z_distance]) - old_co).length)`.
A vector length is nonnegative, so `float_is_zero` holds on it exactly when the
length is at most 1e-4, i.e. when the squared length is at most 1e-8; the test
is embedded in squared form to stay inside ℚ. -/
def close_to (co old_co : Vec3) (dz : ℚ) : Prop :=
  lenSq (vsub (vsub co ⟨0, 0, dz⟩) old_co) ≤ 1 / 100000000

instance (co old_co : Vec3) (dz : ℚ) : Decidable (close_to co old_co dz) := by
  unfold close_to
  infer_instance

/-- Source lines 273-277 (`find_close_original_vert`): walk the snapshot
dictionary in insertion order and return the first old vertex index whose
recorded position is within tolerance of `co` (shifted down by the debug
offset); `None` when no entry is close. -/
def find_close_original_vert (origVerts : List (ℕ × Vec3)) (dz : ℚ) (co : Vec3) : Option ℕ :=
  match origVerts with
  | [] => none
  | (vi, old_co) :: rest =>
      if close_to co old_co dz then some vi else find_close_original_vert rest dz co

/-- Python `set` of the two endpoint identifiers (source lines 182 and 333):
an unordered, deduplicated pair. -/
def pairKey (a b : ℕ) : Finset ℕ := {a, b}

/-- Matching of one new footprint edge against the snapshot, source lines
330-344: map both endpoint coordinates to old vertex identifiers by first
position match; if either endpoint has none (Python's `None` lands in the set,
which then never equals a recorded set of indices) or the identifier set is not
among the recorded old edges, the edge is skipped (`None` here); otherwise the
crease value stored at the first index of the matching old edge key is
returned. -/
def edgeCreaseLookup (origVerts : List (ℕ × Vec3)) (origEdges : List (Finset ℕ))
    (creases : List ℚ) (dz : ℚ) (c1 c2 : Vec3) : Option ℚ :=
  match find_close_original_vert origVerts dz c1, find_close_original_vert origVerts dz c2 with
  | some a, some b =>
      if pairKey a b ∈ origEdges then
        some (creases.getD (origEdges.indexOf (pairKey a b)) 0)
      else none
  | _, _ => none

/-- Source lines 285-291 (`find_other_polygon_verts_i`): the first polygon
containing both edge endpoints wins; when no polygon contains them, Python's
loop variable is left at the last polygon and that one is used; the returned
indices are the polygon's vertices other than the edge's endpoints.  Callers
guarantee at least one face exists (otherwise the NameError modelled by
`GenErr.noFaceForEdge` occurred first). -/
def find_other_polygon_verts_i (faces : List (List ℕ)) (e : ℕ × ℕ) : List ℕ :=
  let f := (faces.find? (fun f => f.contains e.1 && f.contains e.2)).getD (faces.getLastD [])
  f.filter (fun vi => !(vi == e.1) && !(vi == e.2))

/-- Source lines 304-316 (`project_vert_on_edge_linearly`).  The source builds
the edge frame from the normalized direction `AB_dir = AB / L` with `L = ‖AB‖`:
writing d = ABx² + ABy² = L² and M for the matrix with rows (ABx, -ABy) and
(ABy, ABx), the source's `edge_space` equals (1/L)·M and `edge_space.inverted()`
equals (L/d)·Q with Q the matrix with rows (ABx, ABy) and (-ABy, ABx).  The
composite map `edge_space.inverted() ∘ scale_y(1-t) ∘ edge_space` applied to AO
therefore equals (1/d)·(Q (scale_y(1-t) (M AO))): the two factors of L cancel
and the map is exactly rational, which is how it is embedded here.  The result
keeps the projected vertex's z (`(AO + A).to_3d() + Vector([0, 0, O.z])`). -/
def project_vert_on_edge_linearly (O A B : Vec3) (t : ℚ) : Vec3 :=
  let abx := B.x - A.x
  let aby := B.y - A.y
  let d := abx * abx + aby * aby
  let aox := O.x - A.x
  let aoy := O.y - A.y
  let u1 := abx * aox - aby * aoy
  let u2 := aby * aox + abx * aoy
  let u2s := u2 * (1 - t)
  ⟨(abx * u1 + aby * u2s) / d + A.x, (-aby * u1 + abx * u2s) / d + A.y, O.z⟩

/-- Twice the signed area of the triangle (A, B, P) in the plane: zero exactly
when P lies on the line through A and B, and proportional to P's perpendicular
offset from that line. -/
def perpCross (A B P : Vec3) : ℚ :=
  (B.x - A.x) * (P.y - A.y) - (B.y - A.y) * (P.x - A.x)

/-- Lookup in the `verts_to_change` dictionary (newest binding shadows). -/
def dictLookup (m : List (ℕ × Vec3)) (k : ℕ) : Option Vec3 :=
  (m.find? (fun p => p.1 == k)).map Prod.snd

/-- Dictionary update, newest binding first. -/
def dictInsert (m : List (ℕ × Vec3)) (k : ℕ) (v : Vec3) : List (ℕ × Vec3) :=
  (k, v) :: m

/-- Source lines 352-356: for each vertex of the containing polygon other than
the edge's endpoints, chain the projection on the vertex's current entry in
`verts_to_change` (falling back to its mesh coordinate). -/
def applyCreaseWrites (vertCo : ℕ → Vec3) (a b : Vec3) (t : ℚ) (others : List ℕ)
    (m : List (ℕ × Vec3)) : List (ℕ × Vec3) :=
  others.foldl (fun m vi =>
    dictInsert m vi
      (project_vert_on_edge_linearly ((dictLookup m vi).getD (vertCo vi)) a b t)) m

/-- Body of the matching loop of source lines 328-356 for one new footprint
edge: skip unmatched edges; on a match with nonzero crease value, move the
other vertices of the containing polygon by the crease projection with
t = |crease|. -/
def stepMatchEdge (origVerts : List (ℕ × Vec3)) (origEdges : List (Finset ℕ))
    (creases : List ℚ) (dz : ℚ) (vertCo : ℕ → Vec3) (faces : List (List ℕ))
    (m : List (ℕ × Vec3)) (e : ℕ × ℕ) : List (ℕ × Vec3) :=
  match edgeCreaseLookup origVerts origEdges creases dz (vertCo e.1) (vertCo e.2) with
  | none => m
  | some c =>
      if c ≠ 0 then
        applyCreaseWrites vertCo (vertCo e.1) (vertCo e.2) |c|
          (find_other_polygon_verts_i faces e) m
      else m

/-- Source lines 358-362: write the accumulated moves back into the mesh
vertices, leaving every other vertex untouched. -/
def applyMoves (verts : List BVert) (m : List (ℕ × Vec3)) : List BVert :=
  verts.map (fun v =>
    match dictLookup m v.idx with
    | some c => ⟨v.idx, c⟩
    | none => v)

/-- Endpoint pair of a boundary segment handed to the polygonization. -/
abbrev Seg := Vec3 × Vec3

/-- Coordinate lookup by vertex identifier in a mesh (claims only invoke it on
identifiers naming existing vertices; a missing identifier yields the origin). -/
def meshVertCo (M : BMeshState) (i : ℕ) : Vec3 :=
  ((M.verts.find? (fun v => v.idx == i)).map BVert.co).getD ⟨0, 0, 0⟩

/-- Conversion of a ring vertex to a mesh coordinate (z of 0 when absent). -/
def ptzToVec3 (p : PtZ) : Vec3 := ⟨p.x, p.y, p.z.getD 0⟩

/-- Unordered normalization of an edge's endpoint pair. -/
def normPair (p : ℕ × ℕ) : ℕ × ℕ := if p.1 ≤ p.2 then p else (p.2, p.1)

/-- Blender's `obj.data.edges` after an `apply_bmesh`: the explicitly created
edges together with the boundary edges of every face, deduplicated as
unordered pairs. -/
def meshDataEdges (M : BMeshState) : List (ℕ × ℕ) :=
  (((M.edges.map (fun e => (e.v1, e.v2))) ++
    (M.faces.map (fun f => f.zip (f.rotate 1))).flatten).map normPair).dedup

/-- Identifiers of the footprint vertices found by the scan of source lines
156-167. -/
def gableFpIds (M : BMeshState) : List ℕ := ((footprintScan M.verts).2).map BVert.idx

/-- Source line 173: the edges linked to at least one footprint vertex. -/
def gableFpEdges (M : BMeshState) : List BEdge :=
  M.edges.filter (fun e => (gableFpIds M).contains e.v1 || (gableFpIds M).contains e.v2)

/-- Source lines 191-194: one boundary segment per footprint edge. -/
def gableBoundary (M : BMeshState) : List Seg :=
  (gableFpEdges M).map (fun e => (meshVertCo M e.v1, meshVertCo M e.v2))

/-- Source lines 175-199: the observable mesh after removing every
non-footprint vertex (with the faces and edges that vertex carried) and,
unless the footprint is being left in place for debugging, clearing the mesh
entirely (lines 196-197); either way the result is applied to `obj.data`
(line 199). -/
def gableM1 (M : BMeshState) (leave_footprint : Bool) : BMeshState :=
  if leave_footprint then
    ⟨(footprintScan M.verts).2, gableFpEdges M,
      M.faces.filter (fun f => f.all (fun i => (gableFpIds M).contains i))⟩
  else ⟨[], [], []⟩

/-- Source lines 214-364, the tail of `generate_gable_roof` after the roof
polygon has been extracted (split off only to name this stage): build the roof
mesh from the polygon's vertices (shifted up by the debug offset, line 247) and
the skeleton's faces on top of the meshes left by the earlier apply (line 248
loads the existing mesh), apply it (line 259), collect the new footprint edges
at the footprint height (lines 279-282, failing like line 321 when there are
none, or like lines 285-290 when there is no face), run the crease-matching
loop, and apply the moved vertices (lines 358-364). -/
def gableAfterExtract (skel : List Vec3 → List (List ℕ)) (dz footprint_min_z : ℚ)
    (origVerts : List (ℕ × Vec3)) (origEdges : List (Finset ℕ)) (creases : List ℚ)
    (M1 : BMeshState) (poly : Ring) : BMeshState × Option GenErr :=
  let verts0 := poly.dropLast.map ptzToVec3
  let faces0 := skel verts0
  let base := M1.verts.length
  let newVerts := (verts0.map (fun c => Vec3.mk c.x c.y (c.z + dz))).enum.map
    (fun p => BVert.mk (base + p.1) p.2)
  let M2 : BMeshState :=
    ⟨M1.verts ++ newVerts, M1.edges, M1.faces ++ (faces0.map (fun f => f.map (· + base)))⟩
  let fpEdges2 := (meshDataEdges M2).filter (fun e =>
    decide (float_is_zero ((meshVertCo M2 e.1).z - dz - footprint_min_z)) &&
      decide (float_is_zero ((meshVertCo M2 e.2).z - dz - footprint_min_z)))
  if fpEdges2.isEmpty then (M2, some .noFootprintEdge)
  else if M2.faces.isEmpty then (M2, some .noFaceForEdge)
  else
    let moves := fpEdges2.foldl
      (stepMatchEdge origVerts origEdges creases dz (meshVertCo M2) M2.faces) []
    (⟨applyMoves M2.verts moves, M2.edges, M2.faces⟩, none)

/-- Source lines 150-364 (`generate_gable_roof`), as a function from the
observable mesh to the observable mesh after the call paired with the failure
mode, if any.  `pf` stands for the external shapely union-and-polygonize step
(lines 201-202) and `skel` for the external bpypolyskel straight-skeleton step
(lines 242-244; the slope parameters of lines 235-240 that feed only it are
absorbed into it and settled separately by `slope_mode_params`).  The
observable mesh (`obj.data`) changes only at the `apply_bmesh` calls of lines
199, 259 and 364, so a failure keeps the mesh of the last apply; vertex
identifiers are kept stable where bmesh would renumber, which claims never
observe.  The matcher's display-angle computation (lines 318-325) feeds only
the returned angle and is not modelled. -/
def generate_gable_roof (pf : List Seg → List Ring) (skel : List Vec3 → List (List ℕ))
    (M : BMeshState) (leave_footprint : Bool) : BMeshState × Option GenErr :=
  if ¬ (∀ e ∈ gableFpEdges M, e.v1 ∈ gableFpIds M ∧ e.v2 ∈ gableFpIds M) then
    (M, some .deadEdgeAccess)
  else
    match extractRoofPolygon (pf (gableBoundary M)) with
    | .error err => (gableM1 M leave_footprint, some err)
    | .ok poly =>
        gableAfterExtract skel (if leave_footprint then 1 else 0) (footprintScan M.verts).1
          (((footprintScan M.verts).2).map (fun v => (v.idx, v.co)))
          ((gableFpEdges M).map (fun e => pairKey e.v1 e.v2))
          ((gableFpEdges M).map BEdge.crease)
          (gableM1 M leave_footprint) poly

/-- Source lines 84-148 (`generate_hipped_roof`), modelled through the boundary
extraction: boundary segments come from every mesh edge (lines 87-90), and the
extraction of lines 92-103 is shared with the gable path
(`extractRoofPolygon`).  The subsequent straight-skeleton meshing and
0.1-extrusion (lines 105-148, external bpypolyskel and bmesh services) carry
no failure mode any claim concerns; the function returns the extracted roof
polygon or the extraction failure. -/
def generate_hipped_roof (pf : List Seg → List Ring) (verts : List Vec3)
    (edges : List (ℕ × ℕ)) : Except GenErr Ring :=
  let boundary_lines : List Seg :=
    edges.map (fun e => (verts.getD e.1 ⟨0, 0, 0⟩, verts.getD e.2 ⟨0, 0, 0⟩))
  extractRoofPolygon (pf boundary_lines)

/-- Roof path data: a vertex list with an edge list over its indices. -/
structure PathData where
  verts : List Vec3
  edges : List (ℕ × ℕ)
  deriving DecidableEq, Repr

/-- Source lines 429-453 (`get_path_data`), with the host bmesh
boundary-simplification (contextual_create, dissolve_edges, face deletion:
external mesh services) omitted: the path data is the mesh's vertex and edge
lists, and the function returns `None` exactly when either list is empty
(lines 451-453). -/
def get_path_data (verts : List Vec3) (edges : List (ℕ × ℕ)) : Option PathData :=
  if edges = [] ∨ verts = [] then none else some ⟨verts, edges⟩

/-- Source lines 517-526: the default rectangular footprint used by `AddRoof`
when no path data could be derived (unit scale 1). -/
def default_path_data : PathData :=
  ⟨[⟨-5, -5, 0⟩, ⟨-5, 5, 0⟩, ⟨5, 5, 0⟩, ⟨5, -5, 0⟩], [(0, 1), (1, 2), (2, 3), (3, 0)]⟩

/-- Source lines 500-533 (`AddRoof._execute`) through the generation it
triggers: capture path data, falling back to the default rectangle when there
is none (lines 516-526), then regenerate via `update_roof_modifier_bmesh`,
which rebuilds the path mesh and calls `generate_hipped_roof` on it (lines
395-426; property-set persistence and unit conversion are external glue and
the unit scale is 1). -/
def add_roof (pf : List Seg → List Ring) (verts : List Vec3) (edges : List (ℕ × ℕ)) :
    Except GenErr Ring :=
  let pd := (get_path_data verts edges).getD default_path_data
  generate_hipped_roof pf pd.verts pd.edges

/-- Modelled from the spec (§4.2 failure mode): the external shapely
polygonization "yields zero closed polygons" on open or disconnected input.
This instance returns zero polygons for every input; claims apply it only to
inputs that are a single open segment or empty, where the spec fixes that
behavior. -/
def openInputPolygonize : List Seg → List Ring := fun _ => []

/-- Modelled from the spec (§4.3): stand-in for the external bpypolyskel
straight-skeleton step on executions that never reach it. -/
def trivialSkeleton : List Vec3 → List (List ℕ) := fun _ => []

/-- Generation modes of the roof operators (source lines 55-58). -/
inductive GenMode where
  | HEIGHT
  | ANGLE
  deriving DecidableEq, Repr

/-- Python `round(x, 4)`: round to 4 decimal places.  (Python rounds exact
ties to even where Mathlib's `round` takes them up; the two differ only on
exact odd multiples of 5·10⁻⁵.) -/
noncomputable def round4 (x : ℝ) : ℝ := (round (x * 10000) : ℤ) / 10000

/-- Python `math.radians`. -/
noncomputable def radiansOf (deg : ℝ) : ℝ := deg * Real.pi / 180

/-- Source lines 126-131 and 235-240: the (height, angle) pair handed to
`bpypolyskel.polygonize`.  HEIGHT mode keeps the requested height and zeroes
the slope parameter; the other branch (ANGLE) zeroes the height and converts
the entered angle by `tan(radians(round(angle, 4)))`. -/
noncomputable def slope_mode_params (mode : GenMode) (height angle : ℝ) : ℝ × ℝ :=
  match mode with
  | .HEIGHT => (height, 0)
  | .ANGLE => (0, Real.tan (radiansOf (round4 angle)))

/-- An edge as seen by `SetGableRoofEdgeAngle`: its selection flag and the
value of its `BB_gable_roof_angles` float layer. -/
structure GEdge where
  select : Bool
  angle : ℚ
  deriving DecidableEq, Repr

/-- The mesh state `SetGableRoofEdgeAngle.execute` operates on: vertices,
faces, edges with their attribute layer, and whether the
`BB_gable_roof_angles` attribute exists on the mesh. -/
structure GMesh where
  verts : List Vec3
  faces : List (List ℕ)
  edges : List GEdge
  hasAnglesAttr : Bool
  deriving DecidableEq, Repr

/-- Source lines 718-739 (`SetGableRoofEdgeAngle.execute`): create the
`BB_gable_roof_angles` edge attribute if missing (a new float attribute is
initialized to 0.0 on every edge), then write the operator's angle to every
selected edge and apply the bmesh. -/
def set_gable_roof_edge_angle (m : GMesh) (a : ℚ) : GMesh :=
  let m1 := if m.hasAnglesAttr then m
    else ⟨m.verts, m.faces, m.edges.map (fun e => ⟨e.select, 0⟩), true⟩
  ⟨m1.verts, m1.faces,
    m1.edges.map (fun e => if e.select then ⟨e.select, a⟩ else e), m1.hasAnglesAttr⟩

lemma cross2_antisymm (p q : Pt2) : cross2 q p = - cross2 p q := by
  simp only [cross2]; ring

lemma pathSum_snoc (l : List Pt2) (a : Pt2) :
    pathSum (l ++ [a]) =
      pathSum l + (match l.getLast? with | some t => cross2 t a | none => 0) := by
  induction l with
  | nil => simp [pathSum]
  | cons b t ih =>
    cases t with
    | nil => simp [pathSum]
    | cons c t' =>
      have hstep : pathSum ((b :: c :: t') ++ [a]) =
          cross2 b c + pathSum ((c :: t') ++ [a]) := by
        simp [pathSum]
      rw [hstep, ih]
      have hlast : (b :: c :: t').getLast? = (c :: t').getLast? :=
        List.getLast?_cons_cons
      rw [hlast]
      simp [pathSum]
      ring

lemma pathSum_reverse (l : List Pt2) : pathSum l.reverse = - pathSum l := by
  induction l with
  | nil => simp [pathSum]
  | cons a t ih =>
    rw [List.reverse_cons, pathSum_snoc, ih, List.getLast?_reverse]
    cases t with
    | nil => simp [pathSum]
    | cons b t' =>
      simp only [List.head?_cons, pathSum]
      rw [cross2_antisymm b a]
      ring

lemma closeTerm_reverse (l : List Pt2) : closeTerm l.reverse = - closeTerm l := by
  unfold closeTerm
  rw [List.getLast?_reverse, List.head?_reverse]
  cases h1 : l.getLast? <;> cases h2 : l.head? <;> simp only [] <;>
    first
      | simp
      | (rename_i t h; exact cross2_antisymm t h)

lemma signedArea2_reverse (l : List Pt2) : signedArea2 l.reverse = - signedArea2 l := by
  unfold signedArea2
  rw [pathSum_reverse, closeTerm_reverse]
  ring

lemma ringSignedArea_reverse (r : Ring) : ringSignedArea r.reverse = - ringSignedArea r := by
  unfold ringSignedArea
  rw [List.map_reverse, signedArea2_reverse]

lemma ringSignedArea_force_3d (r : Ring) : ringSignedArea (force_3d r) = ringSignedArea r := by
  unfold ringSignedArea force_3d
  congr 1
  rw [List.map_map]
  rfl

lemma pickMaxArea_mem (first : Ring) (rest : List Ring) :
    pickMaxArea first rest = first ∨ pickMaxArea first rest ∈ rest := by
  unfold pickMaxArea
  induction rest generalizing first with
  | nil => left; rfl
  | cons a t ih =>
    simp only [List.foldl_cons]
    rcases ih (if ringArea first < ringArea a then a else first) with h | h
    · by_cases hc : ringArea first < ringArea a
      · right; rw [h, if_pos hc]; exact List.mem_cons_self a t
      · left; rw [h, if_neg hc]
    · right; exact List.mem_cons_of_mem a h

lemma pickMaxArea_le (first : Ring) (rest : List Ring) :
    ringArea first ≤ ringArea (pickMaxArea first rest) ∧
      ∀ s ∈ rest, ringArea s ≤ ringArea (pickMaxArea first rest) := by
  unfold pickMaxArea
  induction rest generalizing first with
  | nil => exact ⟨le_refl _, by simp⟩
  | cons a t ih =>
    simp only [List.foldl_cons]
    obtain ⟨h1, h2⟩ := ih (if ringArea first < ringArea a then a else first)
    have hbase : ringArea first ≤ ringArea (if ringArea first < ringArea a then a else first) := by
      by_cases hc : ringArea first < ringArea a
      · rw [if_pos hc]; exact le_of_lt hc
      · rw [if_neg hc]
    have ha : ringArea a ≤ ringArea (if ringArea first < ringArea a then a else first) := by
      by_cases hc : ringArea first < ringArea a
      · rw [if_pos hc]
      · rw [if_neg hc]; exact le_of_not_lt hc
    refine ⟨le_trans hbase h1, ?_⟩
    intro s hs
    rcases List.mem_cons.mp hs with rfl | hs
    · exact le_trans ha h1
    · exact h2 s hs

lemma normalizeOrientation_ccw {r : Ring} (h : ringSignedArea r ≠ 0) :
    ring_is_ccw (normalizeOrientation r) := by
  unfold normalizeOrientation
  rcases h.lt_or_lt with hneg | hpos
  · have h1 : ¬ ring_is_ccw r := by
      unfold ring_is_ccw
      exact not_lt.mpr hneg.le
    rw [if_neg h1]
    unfold ring_is_ccw
    rw [ringSignedArea_reverse]
    linarith
  · rw [if_pos (show ring_is_ccw r from hpos)]
    exact hpos

lemma normalizeOrientation_of_ccw {r : Ring} (h : ring_is_ccw r) :
    normalizeOrientation r = r := by
  unfold normalizeOrientation
  rw [if_pos h]

lemma footprintScanStep_inv (acc : ℚ × List BVert) (v : BVert)
    (h1 : acc.1 ≤ 0) (h2 : ∀ w ∈ acc.2, w.co.z ≤ acc.1 + 0.0001) :
    (footprintScanStep acc v).1 ≤ 0 ∧
      ∀ w ∈ (footprintScanStep acc v).2, w.co.z ≤ (footprintScanStep acc v).1 + 0.0001 := by
  unfold footprintScanStep
  by_cases hc : float_is_zero (v.co.z - acc.1)
  · rw [if_pos hc]
    refine ⟨h1, ?_⟩
    intro w hw
    rcases List.mem_append.mp hw with hw | hw
    · exact h2 w hw
    · obtain ⟨hz, _⟩ := hc
      have : w = v := by simpa using hw
      subst this
      linarith
  · rw [if_neg hc]
    by_cases hd : acc.1 > v.co.z
    · rw [if_pos hd]
      refine ⟨by dsimp only; linarith, ?_⟩
      intro w hw
      have : w = v := by simpa using hw
      subst this
      dsimp only
      linarith
    · rw [if_neg hd]
      exact ⟨h1, h2⟩

lemma footprintScan_go (verts : List BVert) (acc : ℚ × List BVert)
    (h1 : acc.1 ≤ 0) (h2 : ∀ w ∈ acc.2, w.co.z ≤ acc.1 + 0.0001) :
    (verts.foldl footprintScanStep acc).1 ≤ 0 ∧
      ∀ w ∈ (verts.foldl footprintScanStep acc).2,
        w.co.z ≤ (verts.foldl footprintScanStep acc).1 + 0.0001 := by
  induction verts generalizing acc with
  | nil => exact ⟨h1, h2⟩
  | cons v t ih =>
    rw [List.foldl_cons]
    obtain ⟨g1, g2⟩ := footprintScanStep_inv acc v h1 h2
    exact ih (footprintScanStep acc v) g1 g2

/-- Every collected footprint vertex lies within tolerance of the running
minimum, which never rises above its initial 0. -/
lemma footprintScan_bound (verts : List BVert) :
    (footprintScan verts).1 ≤ 0 ∧
      ∀ w ∈ (footprintScan verts).2, w.co.z ≤ (footprintScan verts).1 + 0.0001 :=
  footprintScan_go verts (0, []) le_rfl (by simp)

/-- A mesh whose vertices all lie strictly more than the tolerance above z = 0
contributes nothing to the footprint scan. -/
lemma footprintScan_all_above (verts : List BVert)
    (h : ∀ v ∈ verts, 0.0001 < v.co.z) : footprintScan verts = (0, []) := by
  unfold footprintScan
  induction verts with
  | nil => rfl
  | cons v t ih =>
    rw [List.foldl_cons]
    have hv := h v (List.mem_cons_self v t)
    have hstep : footprintScanStep (0, []) v = (0, []) := by
      unfold footprintScanStep float_is_zero
      rw [if_neg (by dsimp only; intro hc; linarith [hc.1]),
        if_neg (by dsimp only; linarith)]
    rw [hstep]
    exact ih (fun w hw => h w (List.mem_cons_of_mem v hw))

lemma dictLookup_insert_ne (m : List (ℕ × Vec3)) (k : ℕ) (v : Vec3) (i : ℕ) (h : k ≠ i) :
    dictLookup (dictInsert m k v) i = dictLookup m i := by
  unfold dictLookup dictInsert
  rw [List.find?_cons_of_neg]
  simpa using h

lemma applyCreaseWrites_lookup (vertCo : ℕ → Vec3) (a b : Vec3) (t : ℚ)
    (others : List ℕ) (m : List (ℕ × Vec3)) (i : ℕ) (h : i ∉ others) :
    dictLookup (applyCreaseWrites vertCo a b t others m) i = dictLookup m i := by
  unfold applyCreaseWrites
  induction others generalizing m with
  | nil => rfl
  | cons vi rest ih =>
    rw [List.foldl_cons]
    have hne : vi ≠ i := fun hc => h (hc ▸ List.mem_cons_self vi rest)
    rw [ih _ (fun hc => h (List.mem_cons_of_mem vi hc)), dictLookup_insert_ne _ _ _ _ hne]

lemma stepMatchEdge_lookup (origVerts : List (ℕ × Vec3)) (origEdges : List (Finset ℕ))
    (creases : List ℚ) (dz : ℚ) (vertCo : ℕ → Vec3) (faces : List (List ℕ))
    (m : List (ℕ × Vec3)) (e : ℕ × ℕ) (i : ℕ)
    (h : i ∈ find_other_polygon_verts_i faces e →
      edgeCreaseLookup origVerts origEdges creases dz (vertCo e.1) (vertCo e.2) = none ∨
        edgeCreaseLookup origVerts origEdges creases dz (vertCo e.1) (vertCo e.2) = some 0) :
    dictLookup (stepMatchEdge origVerts origEdges creases dz vertCo faces m e) i =
      dictLookup m i := by
  unfold stepMatchEdge
  cases hm : edgeCreaseLookup origVerts origEdges creases dz (vertCo e.1) (vertCo e.2) with
  | none => rfl
  | some c =>
    dsimp only
    by_cases hc : c ≠ 0
    · rw [if_pos hc]
      apply applyCreaseWrites_lookup
      intro hmem
      rcases h hmem with h0 | h0
      · exact absurd (hm ▸ h0) (by simp)
      · exact hc (by injection hm ▸ h0)
    · rw [if_neg hc]

lemma gableAfterExtract_snd (skel : List Vec3 → List (List ℕ)) (dz fmz : ℚ)
    (origVerts : List (ℕ × Vec3)) (origEdges : List (Finset ℕ)) (creases : List ℚ)
    (M1 : BMeshState) (poly : Ring) :
    (gableAfterExtract skel dz fmz origVerts origEdges creases M1 poly).2 ≠
      some GenErr.noPolygons := by
  simp only [gableAfterExtract]
  split
  · simp
  · split
    · simp
    · simp

lemma find?_perm_of_unique {α : Type} (p : α → Bool) {l1 l2 : List α} (hp : l1.Perm l2)
    (huniq : ∀ a ∈ l1, ∀ b ∈ l1, p a = true → p b = true → a = b) :
    l1.find? p = l2.find? p := by
  cases h1 : l1.find? p with
  | none =>
    cases h2 : l2.find? p with
    | none => rfl
    | some b =>
      have hb := List.find?_some h2
      have hbm := List.mem_of_find?_eq_some h2
      rw [List.find?_eq_none] at h1
      exact absurd hb (by simpa using h1 b (hp.mem_iff.mpr hbm))
  | some a =>
    have ha := List.find?_some h1
    have ham := List.mem_of_find?_eq_some h1
    cases h2 : l2.find? p with
    | none =>
      rw [List.find?_eq_none] at h2
      exact absurd ha (by simpa using h2 a (hp.mem_iff.mp ham))
    | some b =>
      have hb := List.find?_some h2
      have hbm := List.mem_of_find?_eq_some h2
      rw [huniq a ham b (hp.mem_iff.mpr hbm) ha hb]

lemma find_close_eq_find? (origVerts : List (ℕ × Vec3)) (dz : ℚ) (co : Vec3) :
    find_close_original_vert origVerts dz co =
      (origVerts.find? (fun p => decide (close_to co p.2 dz))).map Prod.fst := by
  induction origVerts with
  | nil => rfl
  | cons p rest ih =>
    obtain ⟨vi, oco⟩ := p
    by_cases hc : close_to co oco dz
    · simp [find_close_original_vert, hc]
    · simp [find_close_original_vert, hc, ih]

lemma find_close_perm_of_unique (vs1 vs2 : List (ℕ × Vec3)) (dz : ℚ) (co : Vec3)
    (hp : vs1.Perm vs2)
    (huniq : ∀ p ∈ vs1, ∀ q ∈ vs1, close_to co p.2 dz → close_to co q.2 dz → p = q) :
    find_close_original_vert vs1 dz co = find_close_original_vert vs2 dz co := by
  rw [find_close_eq_find?, find_close_eq_find?]
  congr 1
  apply find?_perm_of_unique _ hp
  intro a ha b hb hpa hpb
  exact huniq a ha b hb (of_decide_eq_true hpa) (of_decide_eq_true hpb)

lemma creaseAt_eq_assoc (ec : List (Finset ℕ × ℚ)) (k : Finset ℕ)
    (hk : k ∈ ec.map Prod.fst) :
    (ec.map Prod.snd).getD ((ec.map Prod.fst).indexOf k) 0 =
      ((ec.find? (fun p => p.1 == k)).map Prod.snd).getD 0 := by
  induction ec with
  | nil => simp at hk
  | cons p rest ih =>
    obtain ⟨f, c⟩ := p
    by_cases hf : f = k
    · subst hf
      simp [List.indexOf_cons_self]
    · have hk' : k ∈ rest.map Prod.fst := by
        rcases List.mem_cons.mp hk with h | h
        · exact absurd h.symm hf
        · exact h
      have hne : (f == k) = false := by simpa using hf
      simp only [List.map_cons, List.find?_cons, hne]
      rw [List.indexOf_cons_ne _ (by simpa using hf), List.getD_cons_succ]
      exact ih hk'

/-- C7: for every ring with nonzero signed area (every valid simple polygon),
the counter-clockwise normalization of source lines 210-212 is idempotent, and
its result has counter-clockwise winding. -/
theorem C7_normalizeOrientation_idempotent (r : Ring) (h : ringSignedArea r ≠ 0) :
    normalizeOrientation (normalizeOrientation r) = normalizeOrientation r ∧
      ring_is_ccw (normalizeOrientation r) := by
  have hccw := normalizeOrientation_ccw h
  exact ⟨normalizeOrientation_of_ccw hccw, hccw⟩

/-- Witness for C7 at a concrete clockwise triangle. -/
theorem C7_witness :
    normalizeOrientation (normalizeOrientation [⟨0, 0, none⟩, ⟨0, 1, none⟩, ⟨1, 0, none⟩]) =
        normalizeOrientation [⟨0, 0, none⟩, ⟨0, 1, none⟩, ⟨1, 0, none⟩] ∧
      ring_is_ccw (normalizeOrientation [⟨0, 0, none⟩, ⟨0, 1, none⟩, ⟨1, 0, none⟩]) :=
  C7_normalizeOrientation_idempotent [⟨0, 0, none⟩, ⟨0, 1, none⟩, ⟨1, 0, none⟩]
    (by norm_num [ringSignedArea, signedArea2, pathSum, closeTerm, cross2, ptXY])

/-- C5: on any nonempty polygonization result the extractor of source lines
205-212 (and 96-103) returns the first polygon of maximal enclosed area, with a
z coordinate of 0 forced on vertices lacking one (others kept), and with
counter-clockwise winding whenever that polygon is nondegenerate. -/
theorem C5_extract_max_area_ccw (rings : List Ring) (h : rings ≠ []) :
    ∃ m res, m ∈ rings ∧ (∀ s ∈ rings, ringArea s ≤ ringArea m) ∧
      extractRoofPolygon rings = .ok res ∧
      (res = force_3d m ∨ res = (force_3d m).reverse) ∧
      (∀ p ∈ res, ∃ q ∈ m, p = force_3d_pt q) ∧
      (ringSignedArea m ≠ 0 → ring_is_ccw res) := by
  cases rings with
  | nil => exact absurd rfl h
  | cons r rs =>
    refine ⟨pickMaxArea r rs, normalizeOrientation (force_3d (pickMaxArea r rs)),
      ?_, ?_, rfl, ?_, ?_, ?_⟩
    · rcases pickMaxArea_mem r rs with h1 | h1
      · rw [h1]; exact List.mem_cons_self r rs
      · exact List.mem_cons_of_mem r h1
    · intro s hs
      obtain ⟨h1, h2⟩ := pickMaxArea_le r rs
      rcases List.mem_cons.mp hs with rfl | hs
      · exact h1
      · exact h2 s hs
    · unfold normalizeOrientation
      by_cases hc : ring_is_ccw (force_3d (pickMaxArea r rs))
      · left; rw [if_pos hc]
      · right; rw [if_neg hc]
    · intro p hp
      have hp' : p ∈ force_3d (pickMaxArea r rs) := by
        unfold normalizeOrientation at hp
        by_cases hc : ring_is_ccw (force_3d (pickMaxArea r rs))
        · rwa [if_pos hc] at hp
        · rw [if_neg hc, List.mem_reverse] at hp
          exact hp
      obtain ⟨q, hq, rfl⟩ := List.mem_map.mp hp'
      exact ⟨q, hq, rfl⟩
    · intro hne
      exact normalizeOrientation_ccw (by rw [ringSignedArea_force_3d]; exact hne)

/-- C1: the crease re-application keeps the moved vertex's z coordinate, but it
does NOT scale the vertex's in-plane perpendicular offset from the edge line by
(1 - t): at the non-axis-aligned edge A = (0,0,0), B = (3,4,0) with vertex
O = (-4,3,7) (which lies perpendicularly off the edge) and crease t = 1, the
claimed behavior lands the vertex on the edge line at (0,0,7), while the code
(which conjugates by the transposed frame matrix, scaling the component along
(ABy, ABx) instead of the perpendicular (-ABy, ABx)) moves it to
(-72/25, 96/25, 7), still off the line. -/
theorem C1_crease_projection_misses_edge_line :
    (∀ O A B : Vec3, ∀ t : ℚ, (project_vert_on_edge_linearly O A B t).z = O.z) ∧
      project_vert_on_edge_linearly ⟨-4, 3, 7⟩ ⟨0, 0, 0⟩ ⟨3, 4, 0⟩ 1 = ⟨-72/25, 96/25, 7⟩ ∧
      perpCross ⟨0, 0, 0⟩ ⟨3, 4, 0⟩
        (project_vert_on_edge_linearly ⟨-4, 3, 7⟩ ⟨0, 0, 0⟩ ⟨3, 4, 0⟩ 1) ≠ 0 := by
  refine ⟨fun O A B t => rfl, ?_, ?_⟩
  · show Vec3.mk _ _ _ = _
    rw [Vec3.mk.injEq]
    norm_num
  · show _ ≠ _
    norm_num [perpCross, project_vert_on_edge_linearly]

/-- C8: a vertex is moved by the matcher only through a matched footprint edge
with nonzero crease among the faces containing it: if every footprint edge
whose containing polygon would move vertex `i` is either unmatched or carries a
zero crease, then `i` receives no entry in `verts_to_change` and keeps exactly
the generated position. -/
theorem C8_unmatched_or_zero_crease_undisturbed
    (origVerts : List (ℕ × Vec3)) (origEdges : List (Finset ℕ)) (creases : List ℚ)
    (dz : ℚ) (vertCo : ℕ → Vec3) (faces : List (List ℕ)) (fpEdges : List (ℕ × ℕ)) (i : ℕ)
    (h : ∀ e ∈ fpEdges, i ∈ find_other_polygon_verts_i faces e →
      edgeCreaseLookup origVerts origEdges creases dz (vertCo e.1) (vertCo e.2) = none ∨
        edgeCreaseLookup origVerts origEdges creases dz (vertCo e.1) (vertCo e.2) = some 0) :
    dictLookup
        (fpEdges.foldl (stepMatchEdge origVerts origEdges creases dz vertCo faces) []) i = none ∧
      ∀ (vs : List BVert) (j : ℕ) (v : BVert), vs[j]? = some v → v.idx = i →
        (applyMoves vs
          (fpEdges.foldl (stepMatchEdge origVerts origEdges creases dz vertCo faces) []))[j]? =
          some v := by
  have hmain : ∀ (l : List (ℕ × Vec3)), dictLookup l i = none →
      (∀ e ∈ fpEdges, i ∈ find_other_polygon_verts_i faces e →
        edgeCreaseLookup origVerts origEdges creases dz (vertCo e.1) (vertCo e.2) = none ∨
          edgeCreaseLookup origVerts origEdges creases dz (vertCo e.1) (vertCo e.2) = some 0) →
      dictLookup
        (fpEdges.foldl (stepMatchEdge origVerts origEdges creases dz vertCo faces) l) i = none := by
    clear h
    induction fpEdges with
    | nil => intro l hl _; exact hl
    | cons e t ih =>
      intro l hl h
      rw [List.foldl_cons]
      apply ih
      · rw [stepMatchEdge_lookup _ _ _ _ _ _ _ _ _ (h e (List.mem_cons_self e t))]
        exact hl
      · intro e' he'
        exact h e' (List.mem_cons_of_mem e he')
  have hnone := hmain [] rfl h
  refine ⟨hnone, ?_⟩
  intro vs j v hj hv
  unfold applyMoves
  rw [List.getElem?_map, hj]
  have hvd : dictLookup
      (fpEdges.foldl (stepMatchEdge origVerts origEdges creases dz vertCo faces) []) v.idx =
      none := by
    rw [hv]; exact hnone
  simp [hvd]

/-- Witness for C8: with one matched zero-crease footprint edge and the face
[0, 1, 2], the roof vertex 2 gets no entry and keeps its generated position. -/
theorem C8_witness :
    dictLookup
        (List.foldl
          (stepMatchEdge [(0, ⟨0, 0, 0⟩), (1, ⟨1, 0, 0⟩)] [pairKey 0 1] [0] 0
            (fun i => if i = 0 then ⟨0, 0, 0⟩ else if i = 1 then ⟨1, 0, 0⟩ else ⟨1/2, 1/2, 1⟩)
            [[0, 1, 2]])
          [] [(0, 1)]) 2 = none :=
  (C8_unmatched_or_zero_crease_undisturbed
    [(0, ⟨0, 0, 0⟩), (1, ⟨1, 0, 0⟩)] [pairKey 0 1] [0] 0
    (fun i => if i = 0 then ⟨0, 0, 0⟩ else if i = 1 then ⟨1, 0, 0⟩ else ⟨1/2, 1/2, 1⟩)
    [[0, 1, 2]] [(0, 1)] 2
    (by
      intro e he _
      right
      rw [List.mem_singleton] at he
      subst he
      norm_num [edgeCreaseLookup, find_close_original_vert, close_to, lenSq, vsub, pairKey,
        List.indexOf, List.findIdx, List.findIdx.go])).1

/-- Witness for C5 on a concrete two-ring polygonization result. -/
theorem C5_witness :
    ∃ m res,
      m ∈ [[(⟨0, 0, none⟩ : PtZ), ⟨1, 0, none⟩, ⟨0, 1, none⟩],
           [⟨0, 0, none⟩, ⟨3, 0, none⟩, ⟨0, 3, none⟩]] ∧
      (∀ s ∈ [[(⟨0, 0, none⟩ : PtZ), ⟨1, 0, none⟩, ⟨0, 1, none⟩],
              [⟨0, 0, none⟩, ⟨3, 0, none⟩, ⟨0, 3, none⟩]], ringArea s ≤ ringArea m) ∧
      extractRoofPolygon [[(⟨0, 0, none⟩ : PtZ), ⟨1, 0, none⟩, ⟨0, 1, none⟩],
           [⟨0, 0, none⟩, ⟨3, 0, none⟩, ⟨0, 3, none⟩]] = .ok res ∧
      (res = force_3d m ∨ res = (force_3d m).reverse) ∧
      (∀ p ∈ res, ∃ q ∈ m, p = force_3d_pt q) ∧
      (ringSignedArea m ≠ 0 → ring_is_ccw res) :=
  C5_extract_max_area_ccw _ (by simp)

/-- C6: the two slope modes are mutually exclusive: HEIGHT mode passes the
requested height through with a slope parameter of 0.0; ANGLE mode passes a
height of 0.0 with the slope parameter tan(radians(round(angle, 4))), the
entered angle in degrees rounded to 4 decimal places before conversion. -/
theorem C6_slope_modes_exclusive (h a : ℝ) :
    slope_mode_params .HEIGHT h a = (h, 0) ∧
      slope_mode_params .ANGLE h a = (0, Real.tan (radiansOf (round4 a))) ∧
      ∀ m : GenMode, (slope_mode_params m h a).1 = 0 ∨ (slope_mode_params m h a).2 = 0 := by
  refine ⟨rfl, rfl, ?_⟩
  intro m
  cases m
  · right; rfl
  · left; rfl

/-- C10: the set-gable-roof-edge-angle operator modifies only the
`BB_gable_roof_angles` value of currently selected edges: vertices, faces,
selection flags and the angle values of unselected edges are unchanged. -/
theorem C10_set_gable_angle_frame (m : GMesh) (a : ℚ) (h : m.hasAnglesAttr = true) :
    (set_gable_roof_edge_angle m a).verts = m.verts ∧
      (set_gable_roof_edge_angle m a).faces = m.faces ∧
      (set_gable_roof_edge_angle m a).hasAnglesAttr = true ∧
      (∀ (j : ℕ) (e : GEdge), m.edges[j]? = some e → e.select = false →
        (set_gable_roof_edge_angle m a).edges[j]? = some e) ∧
      (∀ (j : ℕ) (e : GEdge), m.edges[j]? = some e → e.select = true →
        (set_gable_roof_edge_angle m a).edges[j]? = some ⟨true, a⟩) := by
  unfold set_gable_roof_edge_angle
  rw [if_pos h]
  refine ⟨rfl, rfl, h, ?_, ?_⟩
  · intro j e hj hsel
    dsimp only
    rw [List.getElem?_map, hj]
    simp [hsel]
  · intro j e hj hsel
    dsimp only
    rw [List.getElem?_map, hj]
    simp [hsel]

/-- Witness for C10 at a concrete mesh: the unselected edge keeps its stored
angle value 3 while the operator writes 90. -/
theorem C10_witness :
    (set_gable_roof_edge_angle ⟨[⟨0, 0, 0⟩], [[0]], [⟨false, 3⟩, ⟨true, 4⟩], true⟩ 90).edges[0]? =
      some ⟨false, 3⟩ :=
  (C10_set_gable_angle_frame ⟨[⟨0, 0, 0⟩], [[0]], [⟨false, 3⟩, ⟨true, 4⟩], true⟩ 90
    rfl).2.2.2.1 0 ⟨false, 3⟩ rfl rfl

/-- C2 fails on the code: with the open-segment mesh below, the regeneration
pipeline fails at polygon selection (the polygonization of an open segment
yields no closed polygon), yet the observable mesh after the failure is the
cleared empty mesh, not the previous geometry: the mesh was cleared and applied
(source lines 196-199) before the failing `max()` of line 205. -/
theorem C2_counterexample :
    generate_gable_roof openInputPolygonize trivialSkeleton
        ⟨[⟨0, ⟨0, 0, 0⟩⟩, ⟨1, ⟨1, 0, 0⟩⟩], [⟨0, 1, 0⟩], []⟩ false =
      (⟨[], [], []⟩, some .noPolygons) ∧
      (⟨[], [], []⟩ : BMeshState) ≠ ⟨[⟨0, ⟨0, 0, 0⟩⟩, ⟨1, ⟨1, 0, 0⟩⟩], [⟨0, 1, 0⟩], []⟩ := by
  constructor
  · norm_num [generate_gable_roof, gableFpIds, gableFpEdges, gableBoundary, gableM1,
      footprintScan, footprintScanStep, float_is_zero, openInputPolygonize,
      extractRoofPolygon, meshVertCo, pairKey]
  · simp

/-- C2 amended: when the regeneration (footprint not left in place) fails at
polygon selection over an empty polygonization result, the observable mesh is
the cleared empty mesh — the failure happens after the clear-and-apply, so any
nonempty previous geometry is observably destroyed rather than left untouched. -/
theorem C2_failed_regeneration_leaves_cleared_mesh
    (pf : List Seg → List Ring) (skel : List Vec3 → List (List ℕ)) (M : BMeshState)
    (h : (generate_gable_roof pf skel M false).2 = some GenErr.noPolygons) :
    (generate_gable_roof pf skel M false).1 = ⟨[], [], []⟩ := by
  unfold generate_gable_roof at h ⊢
  split at h
  next hguard => simp at h
  next hguard =>
    rw [if_neg hguard]
    split at h
    next err heq =>
      simp [gableM1]
    next poly heq =>
      exact absurd h (gableAfterExtract_snd _ _ _ _ _ _ _ _)

/-- Witness for C2's amended statement at the concrete open-segment mesh. -/
theorem C2_witness :
    (generate_gable_roof openInputPolygonize trivialSkeleton
        ⟨[⟨0, ⟨0, 0, 0⟩⟩, ⟨1, ⟨1, 0, 0⟩⟩], [⟨0, 1, 0⟩], []⟩ false).1 = ⟨[], [], []⟩ :=
  C2_failed_regeneration_leaves_cleared_mesh openInputPolygonize trivialSkeleton
    ⟨[⟨0, ⟨0, 0, 0⟩⟩, ⟨1, ⟨1, 0, 0⟩⟩], [⟨0, 1, 0⟩], []⟩
    (by norm_num [generate_gable_roof, gableFpIds, gableFpEdges, gableBoundary, gableM1,
      footprintScan, footprintScanStep, float_is_zero, openInputPolygonize,
      extractRoofPolygon, meshVertCo, pairKey])

/-- C9 fails on the code at its failure-site part: with every vertex more than
the tolerance above z = 0 the footprint scan is empty (that much of the claim
holds), but generation then fails at the maximal-area selection over the empty
polygonization output (the `max()` of line 205, `noPolygons`), not at the
footprint-edge access of line 321 (`noFootprintEdge`). -/
theorem C9_counterexample :
    footprintScan [⟨0, ⟨0, 0, 1⟩⟩, ⟨1, ⟨1, 0, 1⟩⟩] = (0, []) ∧
      generate_gable_roof openInputPolygonize trivialSkeleton
          ⟨[⟨0, ⟨0, 0, 1⟩⟩, ⟨1, ⟨1, 0, 1⟩⟩], [⟨0, 1, 0⟩], []⟩ false =
        (⟨[], [], []⟩, some .noPolygons) ∧
      GenErr.noPolygons ≠ GenErr.noFootprintEdge := by
  refine ⟨?_, ?_, by simp⟩
  · norm_num [footprintScan, footprintScanStep, float_is_zero]
  · norm_num [generate_gable_roof, gableFpIds, gableFpEdges, gableBoundary, gableM1,
      footprintScan, footprintScanStep, float_is_zero, openInputPolygonize,
      extractRoofPolygon, meshVertCo, pairKey]

/-- C9 amended: every vertex the scan classifies as a footprint vertex has
z ≤ 1e-4 (the running minimum starts at 0 and only decreases); a mesh whose
vertices all lie more than the tolerance above z = 0 yields an empty footprint
vertex set; and generation on such a mesh fails at the maximal-area selection
over the empty polygonization result (before any footprint-edge access). -/
theorem C9_footprint_baseline_invariant :
    (∀ verts : List BVert, ∀ w ∈ (footprintScan verts).2, w.co.z ≤ 0.0001) ∧
      (∀ verts : List BVert, (∀ v ∈ verts, 0.0001 < v.co.z) → footprintScan verts = (0, [])) ∧
      (∀ (pf : List Seg → List Ring) (skel : List Vec3 → List (List ℕ)) (M : BMeshState)
        (lf : Bool), (∀ v ∈ M.verts, 0.0001 < v.co.z) → pf [] = [] →
        (generate_gable_roof pf skel M lf).2 = some GenErr.noPolygons) := by
  refine ⟨?_, fun verts h => footprintScan_all_above verts h, ?_⟩
  · intro verts w hw
    obtain ⟨h1, h2⟩ := footprintScan_bound verts
    have := h2 w hw
    linarith
  · intro pf skel M lf hz hpf
    have hscan := footprintScan_all_above M.verts hz
    have hids : gableFpIds M = [] := by
      unfold gableFpIds
      rw [hscan]
      rfl
    have hedges : gableFpEdges M = [] := by
      unfold gableFpEdges
      rw [hids]
      simp
    have hbound : gableBoundary M = [] := by
      unfold gableBoundary
      rw [hedges]
      rfl
    unfold generate_gable_roof
    rw [hedges, hbound, hpf]
    simp [extractRoofPolygon]

/-- Witness for C9's amended statement at a concrete all-high mesh, with the
footprint left in place. -/
theorem C9_witness :
    (generate_gable_roof openInputPolygonize trivialSkeleton
        ⟨[⟨0, ⟨0, 0, 1⟩⟩, ⟨1, ⟨1, 0, 1⟩⟩], [⟨0, 1, 0⟩], []⟩ true).2 =
      some GenErr.noPolygons :=
  C9_footprint_baseline_invariant.2.2 openInputPolygonize trivialSkeleton
    ⟨[⟨0, ⟨0, 0, 1⟩⟩, ⟨1, ⟨1, 0, 1⟩⟩], [⟨0, 1, 0⟩], []⟩ true
    (by
      intro v hv
      rcases List.mem_cons.mp hv with rfl | hv
      · norm_num
      · rcases List.mem_singleton.mp hv with rfl
        norm_num)
    rfl

/-- C3 fails on the code at its fallback part: with a nonempty but open path,
the path data is captured as-is (no rectangle fallback, which triggers only on
empty path data), and the polygonization yielding zero closed polygons makes
`max()` raise (modelled `noPolygons`), failing the whole add-roof operation
instead of falling back. -/
theorem C3_counterexample :
    get_path_data [⟨0, 0, 0⟩, ⟨1, 0, 0⟩] [(0, 1)] =
        some ⟨[⟨0, 0, 0⟩, ⟨1, 0, 0⟩], [(0, 1)]⟩ ∧
      add_roof openInputPolygonize [⟨0, 0, 0⟩, ⟨1, 0, 0⟩] [(0, 1)] = .error .noPolygons := by
  constructor
  · simp [get_path_data]
  · simp [add_roof, get_path_data, generate_hipped_roof, openInputPolygonize,
      extractRoofPolygon]

/-- C3 amended: the default-rectangle fallback of `AddRoof` triggers exactly
when the captured path data is empty; when the (nonempty) path's polygonization
yields zero closed polygons, the extraction raises (uncaught ValueError,
`noPolygons`) and the whole operation fails — no polygon, in particular none
with fewer than 3 vertices, is ever produced in that case. -/
theorem C3_fallback_only_on_empty_path
    (pf : List Seg → List Ring) (verts : List Vec3) (edges : List (ℕ × ℕ)) :
    (get_path_data verts edges = none →
      add_roof pf verts edges =
        generate_hipped_roof pf default_path_data.verts default_path_data.edges) ∧
      (∀ pd, get_path_data verts edges = some pd →
        pf (pd.edges.map (fun e => (pd.verts.getD e.1 ⟨0, 0, 0⟩, pd.verts.getD e.2 ⟨0, 0, 0⟩))) =
          [] →
        add_roof pf verts edges = .error .noPolygons) ∧
      extractRoofPolygon ([] : List Ring) = .error .noPolygons := by
  refine ⟨?_, ?_, rfl⟩
  · intro h
    unfold add_roof
    rw [h]
    rfl
  · intro pd h hpf
    unfold add_roof generate_hipped_roof
    rw [h]
    simp only [Option.getD_some]
    rw [hpf]
    rfl

/-- Witness for C3's amended statement: the empty-path case falls back to the
default rectangle's generation. -/
theorem C3_witness :
    add_roof openInputPolygonize [] [] =
      generate_hipped_roof openInputPolygonize default_path_data.verts
        default_path_data.edges :=
  (C3_fallback_only_on_empty_path openInputPolygonize [] []).1 (by simp [get_path_data])

/-- C4 fails on the code: two old vertices that coincide within tolerance make
the first-match vertex lookup order-dependent.  Permuting the old-vertex
enumeration changes which old edge a new edge is matched to, and hence which
crease it receives (3/10 versus 7/10). -/
theorem C4_counterexample :
    ([((0 : ℕ), (⟨0, 0, 0⟩ : Vec3)), (1, ⟨0, 0, 1/20000⟩), (2, ⟨1, 0, 0⟩)]).Perm
        [(1, ⟨0, 0, 1/20000⟩), (0, ⟨0, 0, 0⟩), (2, ⟨1, 0, 0⟩)] ∧
      edgeCreaseLookup [((0 : ℕ), (⟨0, 0, 0⟩ : Vec3)), (1, ⟨0, 0, 1/20000⟩), (2, ⟨1, 0, 0⟩)]
          [pairKey 0 2, pairKey 1 2] [3/10, 7/10] 0 ⟨0, 0, 0⟩ ⟨1, 0, 0⟩ = some (3/10) ∧
      edgeCreaseLookup [(1, ⟨0, 0, 1/20000⟩), ((0 : ℕ), (⟨0, 0, 0⟩ : Vec3)), (2, ⟨1, 0, 0⟩)]
          [pairKey 0 2, pairKey 1 2] [3/10, 7/10] 0 ⟨0, 0, 0⟩ ⟨1, 0, 0⟩ = some (7/10) ∧
      (3/10 : ℚ) ≠ 7/10 := by
  have hmem1 : pairKey 0 2 ∈ [pairKey 0 2, pairKey 1 2] := by decide
  have hmem2 : pairKey 1 2 ∈ [pairKey 0 2, pairKey 1 2] := by decide
  have hidx1 : [pairKey 0 2, pairKey 1 2].indexOf (pairKey 0 2) = 0 := by decide
  have hidx2 : [pairKey 0 2, pairKey 1 2].indexOf (pairKey 1 2) = 1 := by decide
  refine ⟨List.Perm.swap _ _ _, ?_, ?_, by norm_num⟩
  · norm_num [edgeCreaseLookup, find_close_original_vert, close_to, lenSq, vsub,
      hmem1, hidx1]
  · norm_num [edgeCreaseLookup, find_close_original_vert, close_to, lenSq, vsub,
      hmem2, hidx2]

/-- C4 amended: first-match positional matching is enumeration-order dependent
in general; it is invariant under permutation of the old-vertex dictionary and
of the old (edge key, crease) records exactly when each queried endpoint has at
most one tolerance-close old vertex and the edge keys determine their records. -/
theorem C4_matching_perm_invariant_when_unique
    (vs1 vs2 : List (ℕ × Vec3)) (ec1 ec2 : List (Finset ℕ × ℚ)) (dz : ℚ) (c1 c2 : Vec3)
    (hv : vs1.Perm vs2) (he : ec1.Perm ec2)
    (huniq : ∀ c : Vec3, (c = c1 ∨ c = c2) → ∀ p ∈ vs1, ∀ q ∈ vs1,
      close_to c p.2 dz → close_to c q.2 dz → p = q)
    (hkey : ∀ a ∈ ec1, ∀ b ∈ ec1, a.1 = b.1 → a = b) :
    edgeCreaseLookup vs1 (ec1.map Prod.fst) (ec1.map Prod.snd) dz c1 c2 =
      edgeCreaseLookup vs2 (ec2.map Prod.fst) (ec2.map Prod.snd) dz c1 c2 := by
  have h1 : find_close_original_vert vs1 dz c1 = find_close_original_vert vs2 dz c1 :=
    find_close_perm_of_unique vs1 vs2 dz c1 hv (huniq c1 (Or.inl rfl))
  have h2 : find_close_original_vert vs1 dz c2 = find_close_original_vert vs2 dz c2 :=
    find_close_perm_of_unique vs1 vs2 dz c2 hv (huniq c2 (Or.inr rfl))
  unfold edgeCreaseLookup
  rw [← h1, ← h2]
  cases find_close_original_vert vs1 dz c1 with
  | none => rfl
  | some a =>
    cases find_close_original_vert vs1 dz c2 with
    | none => rfl
    | some b =>
      dsimp only
      have hmemiff : (pairKey a b ∈ ec1.map Prod.fst) ↔ (pairKey a b ∈ ec2.map Prod.fst) :=
        (he.map Prod.fst).mem_iff
      by_cases hmem : pairKey a b ∈ ec1.map Prod.fst
      · rw [if_pos hmem, if_pos (hmemiff.mp hmem)]
        rw [creaseAt_eq_assoc ec1 _ hmem, creaseAt_eq_assoc ec2 _ (hmemiff.mp hmem)]
        have hfind : ec1.find? (fun p => p.1 == pairKey a b) =
            ec2.find? (fun p => p.1 == pairKey a b) := by
          apply find?_perm_of_unique _ he
          intro x hx y hy hpx hpy
          exact hkey x hx y hy (by
            have hx' : x.1 = pairKey a b := by simpa using hpx
            have hy' : y.1 = pairKey a b := by simpa using hpy
            rw [hx', hy'])
        rw [hfind]
      · rw [if_neg hmem, if_neg (fun hc => hmem (hmemiff.mpr hc))]

/-- Witness for C4's amended statement: with distinct, well-separated old
vertices the matched crease is the same under both enumeration orders. -/
theorem C4_witness :
    edgeCreaseLookup [((0 : ℕ), (⟨0, 0, 0⟩ : Vec3)), (1, ⟨1, 0, 0⟩)]
        ([(pairKey 0 1, (5 : ℚ))].map Prod.fst) ([(pairKey 0 1, (5 : ℚ))].map Prod.snd)
        0 ⟨0, 0, 0⟩ ⟨1, 0, 0⟩ =
      edgeCreaseLookup [(1, ⟨1, 0, 0⟩), ((0 : ℕ), (⟨0, 0, 0⟩ : Vec3))]
        ([(pairKey 0 1, (5 : ℚ))].map Prod.fst) ([(pairKey 0 1, (5 : ℚ))].map Prod.snd)
        0 ⟨0, 0, 0⟩ ⟨1, 0, 0⟩ :=
  C4_matching_perm_invariant_when_unique
    [((0 : ℕ), (⟨0, 0, 0⟩ : Vec3)), (1, ⟨1, 0, 0⟩)]
    [(1, ⟨1, 0, 0⟩), ((0 : ℕ), (⟨0, 0, 0⟩ : Vec3))]
    [(pairKey 0 1, (5 : ℚ))] [(pairKey 0 1, (5 : ℚ))] 0 ⟨0, 0, 0⟩ ⟨1, 0, 0⟩
    (List.Perm.swap _ _ _) (List.Perm.refl _)
    (by
      intro c hc p hp q hq hcp hcq
      rcases List.mem_cons.mp hp with rfl | hp <;>
        rcases List.mem_cons.mp hq with rfl | hq
      · rfl
      · rw [List.mem_singleton] at hq
        subst hq
        rcases hc with rfl | rfl <;>
          [skip; exact absurd hcp (by norm_num [close_to, lenSq, vsub])]
        exact absurd hcq (by norm_num [close_to, lenSq, vsub])
      · rw [List.mem_singleton] at hp
        subst hp
        rcases hc with rfl | rfl <;>
          [skip; exact absurd hcq (by norm_num [close_to, lenSq, vsub])]
        exact absurd hcp (by norm_num [close_to, lenSq, vsub])
      · rw [List.mem_singleton] at hp hq
        rw [hp, hq])
    (by
      intro a ha b hb _
      rw [List.mem_singleton] at ha hb
      rw [ha, hb])

end RoofSpec
